import Mathlib

/-!
Shallow embedding of the SentimentFlow-V2 core in Lean 4, for checking the
natural-language specification against the code.

Embedded sources:
- `src/utils/text_utils.py` (class `StartupSearch`: `build_engine`,
  `find_startups_in_text`, backed by a `pyahocorasick` automaton),
- `src/utils/sentiment_utils.py` (`predict_batch_for_startups`,
  `analyze_article_sentiments`),
- `src/utils/api_utils.py` (`build_sector_queries`, `deduplicate_articles`).

Modelling conventions:
- Python strings are Lean `String`; where the code calls `.lower()` /
  `.strip()` we work on `String.data` (`List Char`) with structural
  functions so that every definition evaluates inside the kernel.
- Python floats (model scores) are modelled as `ℚ`.  Arithmetic on scores
  is implemented on the numerator/denominator integers (the `Rat` field
  operations of the library are irreducible, so we avoid them).
- Python dicts that the code builds incrementally are modelled as
  insertion-ordered association lists with overwrite-on-existing-key
  semantics; Python sets are modelled as deduplicated lists, and only
  membership in them is ever relied upon.
- The Hugging Face model invocation (tokenizer + model + softmax) is an
  external effect; it is modelled as an injectable `Backend` function that
  either returns one entailment score per (premise, hypothesis) pair or
  fails (a raised exception is `Except.error`).  A Python function that
  catches every exception and returns a normal value is modelled as a
  total function returning that value on the corresponding branch.
- `datetime.now()` / `timedelta(days = n)` / `strftime` are modelled by an
  abstract integer day number `today`, with `today - n` standing for the
  formatted date n days ago.
-/

/-! ## Generic helpers -/

/-- Decidable equality for `Except`, so that results of fallible
operations can be checked on concrete inputs. -/
instance {ε α : Type} [DecidableEq ε] [DecidableEq α] : DecidableEq (Except ε α) :=
  fun a b =>
    match a, b with
    | Except.ok x, Except.ok y =>
      if h : x = y then isTrue (by rw [h]) else isFalse (by intro hc; cases hc; exact h rfl)
    | Except.error x, Except.error y =>
      if h : x = y then isTrue (by rw [h]) else isFalse (by intro hc; cases hc; exact h rfl)
    | Except.ok _, Except.error _ => isFalse (by intro hc; cases hc)
    | Except.error _, Except.ok _ => isFalse (by intro hc; cases hc)

/-- Python `str.lower()` on the character list of a string (ASCII case fold,
which is what the inputs of this program exercise). -/
def pyLowerChars (l : List Char) : List Char := l.map Char.toLower

/-- Python `str.strip()`: drop leading and trailing whitespace characters. -/
def pyStripChars (l : List Char) : List Char :=
  ((l.dropWhile Char.isWhitespace).reverse.dropWhile Char.isWhitespace).reverse

/-- Python string comparison on code points, used by `sorted(key=...)`. -/
def lexLtChars : List Char → List Char → Bool
  | [], [] => false
  | [], _ :: _ => true
  | _ :: _, [] => false
  | a :: as, b :: bs =>
    if a.toNat < b.toNat then true
    else if b.toNat < a.toNat then false
    else lexLtChars as bs

/-- Python `a < b` on strings. -/
def pyStrLt (a b : String) : Bool := lexLtChars a.data b.data

/-- Overwrite-or-append update of an insertion-ordered association list;
models `d[k] = v` on a Python dict. -/
def assocSet {α β : Type} [DecidableEq α] : List (α × β) → α → β → List (α × β)
  | [], k, v => [(k, v)]
  | (k0, v0) :: rest, k, v =>
    if k0 = k then (k0, v) :: rest else (k0, v0) :: assocSet rest k v

/-! ## text_utils.py : StartupSearch -/

/-- Entry of the startup catalog as consumed by `StartupSearch` and the
sentiment scorer: a dict with keys "id" and "name". -/
structure Startup where
  id : String
  name : String
deriving DecidableEq, Repr

/-- State of a `pyahocorasick` automaton: the stored (word, value) pairs,
and whether `make_automaton()` has successfully converted it (its `kind`
is AHOCORASICK rather than EMPTY/TRIE). -/
structure AhoAutomaton where
  words : List (List Char × String)
  finalized : Bool
deriving DecidableEq, Repr

/-- Automaton `add_word(word, value)`: an empty word is rejected (the
library returns False without storing anything); adding an existing word
overwrites its value. -/
def addWord (a : AhoAutomaton) (w : List Char) (v : String) : AhoAutomaton :=
  if w = [] then a else { a with words := assocSet a.words w v }

/-- Automaton `make_automaton()`: converts the trie for searching.  On an
automaton holding no words the call is a no-op (the kind stays EMPTY), so
the automaton stays unusable for `iter`. -/
def makeAutomaton (a : AhoAutomaton) : AhoAutomaton :=
  if a.words = [] then a else { a with finalized := true }

/-- State of a `StartupSearch` instance: `self.automaton` (None until
`build_engine` ran) and `self.startup_map`. -/
structure StartupSearch where
  automaton : Option AhoAutomaton
  startup_map : List (String × Startup)
deriving DecidableEq, Repr

/-- A freshly constructed `StartupSearch()`. -/
def StartupSearch.init : StartupSearch :=
  { automaton := none, startup_map := [] }

/-- The normalization `startup_name.strip().lower()` applied to a display
name, as the character list that becomes an automaton word. -/
def normName (name : String) : List Char := pyLowerChars (pyStripChars name.data)

/-- One iteration of the `for startup in startups` loop of `build_engine`:
skip falsy names, otherwise add the stripped, lower-cased name to the
automaton and record the original entry in `startup_map`. -/
def buildStep (acc : AhoAutomaton × List (String × Startup)) (s : Startup) :
    AhoAutomaton × List (String × Startup) :=
  if s.name = "" then acc
  else
    (addWord acc.1 (normName s.name) s.id,
     assocSet acc.2 s.id ⟨s.id, s.name⟩)

/-- `StartupSearch.build_engine(startups)`.  With no startups it installs a
bare `ahocorasick.Automaton()` and returns; otherwise it fills a fresh
automaton and calls `make_automaton()`. -/
def build_engine (self : StartupSearch) (startups : List Startup) : StartupSearch :=
  if startups = [] then { self with automaton := some ⟨[], false⟩ }
  else
    let p := startups.foldl buildStep (⟨[], false⟩, self.startup_map)
    { automaton := some (makeAutomaton p.1), startup_map := p.2 }

/-- The (word, value) pairs that the `build_engine` loop successfully
stores in the automaton, in loop order: falsy names are skipped by the
loop, and names normalizing to the empty word are rejected by
`add_word`.  (When two names normalize to the same word the later value
overwrites the earlier one; `wordEntries` lists both, so it describes the
automaton exactly when the normalized names are distinct.) -/
def wordEntries (startups : List Startup) : List (List Char × String) :=
  startups.filterMap (fun s =>
    if s.name = "" then none
    else if normName s.name = [] then none
    else some (normName s.name, s.id))

/-- The distinct normalized words contributed by a catalog. -/
def addedNorms (startups : List Startup) : List (List Char) :=
  (wordEntries startups).map Prod.fst

/-- `StartupSearch.find_startups_in_text(text)`.  The returned list models
the set `found_ids` (only membership is meaningful).  With
`self.automaton` still None the code logs an error and returns the empty
set; calling `iter` on an automaton that was never successfully finalized
raises, which is `Except.error`. -/
def find_startups_in_text (self : StartupSearch) (text : String) :
    Except String (List String) :=
  match self.automaton with
  | none => Except.ok []
  | some a =>
    if a.finalized then
      Except.ok
        ((a.words.filter (fun kv => decide (kv.1 <:+: pyLowerChars text.data))).map
          Prod.snd)
    else
      Except.error "not an Aho-Corasick automaton yet; call make_automaton() first"

/-! ## sentiment_utils.py -/

/-- The injected scoring backend: tokenizer + model + softmax + entailment
column, one score per (premise, hypothesis) pair; `Except.error` models a
raised exception. -/
def Backend : Type := List (String × String) → Except String (List ℚ)

/-- The label list `["positive", "neutral", "negative"]`. -/
def labels : List String := ["positive", "neutral", "negative"]

/-- The hypothesis f-string `f"The news is {label} for {startup['name']}."`. -/
def hypothesisFor (label name : String) : String :=
  "The news is " ++ label ++ " for " ++ name ++ "."

/-- The (premise, hypothesis) pairs together with their `mapping` tags
`(startup_id, label)`, in the order the double loop of
`predict_batch_for_startups` appends them (the source keeps three
index-aligned lists `texts`, `hypotheses`, `mapping`). -/
def pairList (article_text : String) (startups : List Startup) :
    List ((String × String) × (String × String)) :=
  startups.flatMap (fun s =>
    labels.map (fun label =>
      ((article_text, hypothesisFor label s.name), (s.id, label))))

/-- The three per-label scores of one startup while the `results` dict is
being filled (keys "positiveScore", "neutralScore", "negativeScore"). -/
structure LabelScores where
  positiveScore : ℚ
  neutralScore : ℚ
  negativeScore : ℚ
deriving DecidableEq, Repr

/-- The initial dict comprehension `{lbl + "Score": 0.0 for lbl in labels}`. -/
def zeroScores : LabelScores := ⟨0, 0, 0⟩

/-- Assignment `results[sid][label + "Score"] = v` for one of the three
labels (the mapping only ever carries these three). -/
def setLabelScore (d : LabelScores) (label : String) (v : ℚ) : LabelScores :=
  if label = "positive" then { d with positiveScore := v }
  else if label = "neutral" then { d with neutralScore := v }
  else if label = "negative" then { d with negativeScore := v }
  else d

/-- Lookup `data[x + "Score"]` for a label. -/
def getLabelScore (d : LabelScores) (label : String) : ℚ :=
  if label = "positive" then d.positiveScore
  else if label = "neutral" then d.neutralScore
  else d.negativeScore

/-- Python `round(x, 4)` (round half to even at the fourth decimal),
computed on the numerator and denominator so that it evaluates in the
kernel. -/
def round4 (x : ℚ) : ℚ :=
  let n2 : ℤ := x.num * 10000
  let d : ℤ := (x.den : ℤ)
  let q : ℤ := Int.fdiv n2 d
  let r : ℤ := n2 - q * d
  let k : ℤ :=
    if 2 * r < d then q
    else if d < 2 * r then q + 1
    else if q % 2 = 0 then q else q + 1
  mkRat k 10000

/-- One step of `for (startup_id, label), score in zip(mapping, ...)`:
create the zero-filled entry on first sight of the id, then store the
rounded score under the label. -/
def upsertScore : List (String × LabelScores) → String → String → ℚ →
    List (String × LabelScores)
  | [], sid, label, v => [(sid, setLabelScore zeroScores label v)]
  | (k, d) :: rest, sid, label, v =>
    if k = sid then (k, setLabelScore d label v) :: rest
    else (k, d) :: upsertScore rest sid label v

/-- The aggregation loop over `zip(mapping, entailment_scores)` (like
Python `zip`, `List.zip` truncates to the shorter list). -/
def aggregateScores (mapping : List (String × String)) (scores : List ℚ) :
    List (String × LabelScores) :=
  (mapping.zip scores).foldl (fun res p => upsertScore res p.1.1 p.1.2 (round4 p.2)) []

/-- Python `max(lst, key=key)`: the first element attaining the maximal
key (a later element replaces the current best only when strictly
greater).  Python raises on an empty list; the code only applies this to
the non-empty `labels`, so the empty case is arbitrary. -/
def pyMaxKey (l : List String) (key : String → ℚ) : String :=
  match l with
  | [] => ""
  | x :: xs => xs.foldl (fun best c => if key best < key c then c else best) x

/-- One value of the dict returned by `predict_batch_for_startups`: the
three scores plus the "sentiment" key added by the final loop. -/
structure SentimentInfo where
  positiveScore : ℚ
  neutralScore : ℚ
  negativeScore : ℚ
  sentiment : String
deriving DecidableEq, Repr

/-- The final loop `best_label = max([...], key=lambda x: data[x + "Score"])`
over one entry of `results`. -/
def finalizeInfo (d : LabelScores) : SentimentInfo :=
  ⟨d.positiveScore, d.neutralScore, d.negativeScore,
   pyMaxKey labels (fun x => getLabelScore d x)⟩

/-- `predict_batch_for_startups(article_text, startups)` with the model
invocation abstracted as `score`.  The `except Exception` branch logs the
failure and returns the empty dict. -/
def predict_batch_for_startups (score : Backend) (article_text : String)
    (startups : List Startup) : List (String × SentimentInfo) :=
  if startups = [] then []
  else
    match score ((pairList article_text startups).map Prod.fst) with
    | Except.error _ => []
    | Except.ok entailment_scores =>
      (aggregateScores ((pairList article_text startups).map Prod.snd)
          entailment_scores).map
        (fun p => (p.1, finalizeInfo p.2))

/-- Article dict as consumed by `analyze_article_sentiments` (keys "id",
"title", "content"). -/
structure Article where
  id : String
  title : String
  content : String
deriving DecidableEq, Repr

/-- A DB-ready sentiment row as appended to `db_records`. -/
structure SentimentRecord where
  articleId : String
  startupId : String
  positiveScore : ℚ
  neutralScore : ℚ
  negativeScore : ℚ
  sentiment : String
deriving DecidableEq, Repr

/-- `analyze_article_sentiments(article, startups)` with the model
invocation abstracted as `score`. -/
def analyze_article_sentiments (score : Backend) (article : Article)
    (startups : List Startup) : List SentimentRecord :=
  if startups = [] then []
  else
    let text := article.title ++ ". " ++ article.content
    let predictions := predict_batch_for_startups score text startups
    if predictions = [] then []
    else
      startups.filterMap (fun s =>
        (predictions.find? (fun p => p.1 == s.id)).map (fun p =>
          { articleId := article.id
            startupId := s.id
            positiveScore := p.2.positiveScore
            neutralScore := p.2.neutralScore
            negativeScore := p.2.negativeScore
            sentiment := p.2.sentiment }))

/-! ## api_utils.py : query building and deduplication -/

/-- Row of `all_startups_data` as consumed by `build_sector_queries`
(keys "id", "name", "sectorId", "sectorName", "findingKeywords"; the last
one may be None). -/
structure ApiStartup where
  id : String
  name : String
  sectorId : String
  sectorName : String
  findingKeywords : Option (List String)
deriving DecidableEq, Repr

/-- Insertion step of the stable sort `sorted(..., key=itemgetter('sectorId'))`. -/
def insertBySector (x : ApiStartup) : List ApiStartup → List ApiStartup
  | [] => [x]
  | y :: ys =>
    if pyStrLt x.sectorId y.sectorId then x :: y :: ys else y :: insertBySector x ys

/-- `sorted(l, key=itemgetter('sectorId'))`. -/
def sortBySector (l : List ApiStartup) : List ApiStartup :=
  l.foldr insertBySector []

/-- Worker for `groupRuns`: `k` is the key of the run being collected and
`run` its members so far in reverse order. -/
def groupRunsGo (k : String) (run : List ApiStartup) :
    List ApiStartup → List (String × List ApiStartup)
  | [] => [(k, run.reverse)]
  | y :: ys =>
    if y.sectorId == k then groupRunsGo k (y :: run) ys
    else (k, run.reverse) :: groupRunsGo y.sectorId [y] ys

/-- `itertools.groupby(..., key=itemgetter('sectorId'))`: maximal runs of
consecutive elements sharing a sectorId. -/
def groupRuns : List ApiStartup → List (String × List ApiStartup)
  | [] => []
  | x :: xs => groupRunsGo x.sectorId [x] xs

/-- Steps 1-3 of `build_sector_queries`: partition into new (not in
`existing_startup_ids`) and existing startups, and group each partition by
sectorId with its lookback dates; `today - n` models the formatted date n
days ago. -/
def build_query_groups (today : ℤ) (all_startups_data : List ApiStartup)
    (existing_startup_ids : List String) : List (String × ℤ × ℤ × List ApiStartup) :=
  let new_startups :=
    all_startups_data.filter (fun s => !(existing_startup_ids.contains s.id))
  let existing_startups :=
    all_startups_data.filter (fun s => existing_startup_ids.contains s.id)
  let one_day_ago := today - 1
  let thirty_days_ago := today - 30
  let newGroups :=
    if new_startups.isEmpty then []
    else (groupRuns (sortBySector new_startups)).map
      (fun g => (g.1, thirty_days_ago, today, g.2))
  let existingGroups :=
    if existing_startups.isEmpty then []
    else (groupRuns (sortBySector existing_startups)).map
      (fun g => (g.1, one_day_ago, today, g.2))
  newGroups ++ existingGroups

/-- The f-string `f'"{k}"'`. -/
def pyQuote (k : String) : String := "\"" ++ k ++ "\""

/-- The set `all_keywords`: the group's sectorNames (skipping falsy ones)
together with every member's `findingKeywords` (None meaning the empty
list), deduplicated; only membership in this list is meaningful. -/
def groupAllKeywords (g : List ApiStartup) : List String :=
  ((g.filterMap (fun s => if s.sectorName = "" then none else some s.sectorName)) ++
    g.flatMap (fun s => s.findingKeywords.getD [])).dedup

/-- The comprehension `[f'"{k}"' for k in all_keywords if k]`. -/
def quotedKeywords (g : List ApiStartup) : List String :=
  ((groupAllKeywords g).filter (fun k => !(k == ""))).map pyQuote

/-- The clause `" OR ".join(['"name1"', ...])` over the group's startup
names. -/
def startupNameQuery (g : List ApiStartup) : String :=
  String.intercalate " OR " (g.map (fun s => pyQuote s.name))

/-- Step 4 of `build_sector_queries` for one query group: skip the group
when `quoted_keywords` is empty, otherwise emit
`("(names) AND (keywords)", from_date, to_date)`. -/
def buildQueryForGroup (grp : String × ℤ × ℤ × List ApiStartup) :
    Option (String × ℤ × ℤ) :=
  let qk := quotedKeywords grp.2.2.2
  if qk.isEmpty then none
  else
    some ("(" ++ startupNameQuery grp.2.2.2 ++ ") AND (" ++
      String.intercalate " OR " qk ++ ")", grp.2.1, grp.2.2.1)

/-- `build_sector_queries(all_startups_data, existing_startup_ids)`,
returning the list of `(query_string, from_date, to_date)` tuples. -/
def build_sector_queries (today : ℤ) (all_startups_data : List ApiStartup)
    (existing_startup_ids : List String) : List (String × ℤ × ℤ) :=
  (build_query_groups today all_startups_data existing_startup_ids).filterMap
    buildQueryForGroup

/-- A raw fetched article as consumed by `deduplicate_articles`:
`article.get("url")` may be absent, and the title stands for the rest of
the payload. -/
structure RawArticle where
  url : Option String
  title : String
deriving DecidableEq, Repr

/-- One iteration of the loop of `deduplicate_articles`: skip articles
whose url is falsy (missing or empty) or already a key of the dict,
otherwise insert `unique_articles[url] = article`. -/
def dedupStep (unique_articles : List (String × RawArticle)) (article : RawArticle) :
    List (String × RawArticle) :=
  match article.url with
  | none => unique_articles
  | some url =>
    if url == "" || (unique_articles.map Prod.fst).contains url then unique_articles
    else unique_articles ++ [(url, article)]

/-- `deduplicate_articles(all_articles)`: the returned association list
models the insertion-ordered dict `{url: article}`. -/
def deduplicate_articles (all_articles : List RawArticle) :
    List (String × RawArticle) :=
  all_articles.foldl dedupStep []

/-- Modelled from the spec (for comparison only, not from the source): the
keyword clause as the specification describes it, with empty and blank
(whitespace-only) keywords dropped. -/
def specKeywordClause (g : List ApiStartup) : List String :=
  (groupAllKeywords g).filter (fun k => !(k.data.all Char.isWhitespace))

/-! ## Concrete backends used to exercise the scorer -/

/-- A backend whose model invocation raises: the `tokenizer`/`model` call
fails with message `e`. -/
def failingBackend (e : String) : Backend := fun _ => Except.error e

/-- A deterministic backend scoring every pair one half. -/
def constHalfBackend : Backend := fun prs => Except.ok (prs.map (fun _ => mkRat 1 2))

/-- A deterministic backend for a single-startup batch: entailment scores
0.7, 0.2, 0.1 for the positive, neutral, negative hypotheses. -/
def threeScoreBackend : Backend :=
  fun _ => Except.ok [mkRat 7 10, mkRat 2 10, mkRat 1 10]

/-- The dict value `predict_batch_for_startups` produces from
`threeScoreBackend` for a single startup. -/
def demoInfo : SentimentInfo := ⟨mkRat 7 10, mkRat 2 10, mkRat 1 10, "positive"⟩

/-! ## Shared lemmas -/

/-- The `(premise, hypothesis)` pair list has three entries per startup. -/
theorem pairList_length (article_text : String) (startups : List Startup) :
    (pairList article_text startups).length = 3 * startups.length := by
  induction startups with
  | nil => rfl
  | cons a rest ih =>
    have hstep : pairList article_text (a :: rest) =
        (labels.map (fun label =>
          ((article_text, hypothesisFor label a.name), (a.id, label)))) ++
          pairList article_text rest := rfl
    rw [hstep, List.length_append, List.length_map, ih]
    simp [labels]
    omega

/-! ## C1 : backend failure handling in the bulk scorer -/

/-- C1, counterexample.  The claim says a backend failure makes the whole
bulk scoring call fail and is propagated to the caller.  In the code the
`except` branch of `predict_batch_for_startups` returns the empty dict
instead: with a raising backend the call returns exactly the same normal
empty result as a successful call on an empty job, and the caller gets an
empty record list with no error. -/
theorem C1_counterexample :
    predict_batch_for_startups (failingBackend "model failure") "Swiggy raised funds"
        [⟨"s1", "Swiggy"⟩] =
      predict_batch_for_startups constHalfBackend "Swiggy raised funds" [] ∧
    analyze_article_sentiments (failingBackend "model failure")
        ⟨"a1", "Swiggy raised funds", "body"⟩ [⟨"s1", "Swiggy"⟩] = [] := by
  decide

/-- C1, amended.  When the scoring backend raises, the bulk scoring call
catches the exception, logs it and returns the empty dict, and the
per-article wrapper then returns the empty record list: no partial
records are emitted, but the failure is swallowed rather than propagated
to the caller. -/
theorem C1_swallowed_backend_failure (score : Backend) (e : String)
    (article_text : String) (article : Article) (startups : List Startup)
    (h : ∀ prs, score prs = Except.error e) :
    predict_batch_for_startups score article_text startups = [] ∧
    analyze_article_sentiments score article startups = [] := by
  have hp : ∀ t : String, predict_batch_for_startups score t startups = [] := by
    intro t
    by_cases hs : startups = []
    · simp [predict_batch_for_startups, hs]
    · simp [predict_batch_for_startups, hs, h]
  refine ⟨hp article_text, ?_⟩
  by_cases hs : startups = []
  · simp [analyze_article_sentiments, hs]
  · simp [analyze_article_sentiments, hs, hp]

/-- C1, witness for the amended statement at a concrete failing backend. -/
theorem C1_witness :
    predict_batch_for_startups (failingBackend "boom") "Swiggy raised funds"
        [⟨"s1", "Swiggy"⟩] = [] ∧
    analyze_article_sentiments (failingBackend "boom") ⟨"a1", "t", "c"⟩
        [⟨"s1", "Swiggy"⟩] = [] :=
  C1_swallowed_backend_failure (failingBackend "boom") "boom" "Swiggy raised funds"
    ⟨"a1", "t", "c"⟩ [⟨"s1", "Swiggy"⟩] (fun _ => rfl)

/-! ## C2 : find before build -/

/-- C2, counterexample.  The claim says `find` called before `build` fails
loudly and never silently returns an empty set.  The code logs and
returns the empty set: on a fresh instance the call succeeds with the
empty result (an `Except.ok`, not an `Except.error`). -/
theorem C2_counterexample :
    find_startups_in_text StartupSearch.init "Swiggy raised funds" = Except.ok [] := by
  decide

/-- C2, amended.  Calling `find_startups_in_text` while `self.automaton`
is still None logs an error and returns the empty set; no exception is
raised, so the caller cannot distinguish this from a genuine no-match
result. -/
theorem C2_returns_empty_before_build (self : StartupSearch) (text : String)
    (h : self.automaton = none) :
    find_startups_in_text self text = Except.ok [] := by
  unfold find_startups_in_text
  rw [h]

/-- C2, witness on a freshly constructed instance. -/
theorem C2_witness :
    find_startups_in_text StartupSearch.init "no startups here" = Except.ok [] :=
  C2_returns_empty_before_build StartupSearch.init "no startups here" rfl

/-! ## C10 : build on the empty catalog leaves the automaton unfinalized -/

/-- C10, confirmed.  `build_engine([])` installs a bare automaton without
calling `make_automaton` (`finalized = false`), and every subsequent
`find_startups_in_text` call passes the None-check, reaches the scan and
raises instead of returning the empty set. -/
theorem C10_unfinalized_automaton_on_empty_build :
    (build_engine StartupSearch.init []).automaton = some ⟨[], false⟩ ∧
    ∀ text : String,
      find_startups_in_text (build_engine StartupSearch.init []) text =
        Except.error "not an Aho-Corasick automaton yet; call make_automaton() first" :=
  ⟨rfl, fun _ => rfl⟩

/-! ## C7 : construction of the (premise, hypothesis) pairs -/

/-- C7, counterexample.  The claim states the hypothesis template
"the news for `<entity name>` is `<label>`"; the code formats
`f"The news is {label} for {name}."` instead, a different sentence. -/
theorem C7_counterexample :
    (pairList "Swiggy raised funds" [⟨"e1", "Swiggy"⟩]).map (fun pr => pr.1.2) =
      ["The news is positive for Swiggy.", "The news is neutral for Swiggy.",
        "The news is negative for Swiggy."] ∧
    ("The news is positive for Swiggy." : String) ≠ "the news for Swiggy is positive" := by
  decide

/-- C7, amended.  For every job and every entity the scorer builds exactly
three (premise, hypothesis) pairs, one per label, with the article text
as premise and hypothesis `"The news is <label> for <entity name>."`,
3 × (number of entities) pairs in total, each tagged with its
(entity identifier, label); the article identifier is implicit because
the batch is built per article. -/
theorem C7_pair_construction (article_text : String) (startups : List Startup)
    (s : Startup) (label : String) (hs : s ∈ startups) (hl : label ∈ labels) :
    (pairList article_text startups).length = 3 * startups.length ∧
    ((article_text, hypothesisFor label s.name), (s.id, label)) ∈
      pairList article_text startups ∧
    ∀ pr ∈ pairList article_text startups,
      pr.1.1 = article_text ∧ pr.2.2 ∈ labels ∧
      ∃ s2 ∈ startups, pr.2.1 = s2.id ∧ pr.1.2 = hypothesisFor pr.2.2 s2.name := by
  refine ⟨pairList_length article_text startups, ?_, ?_⟩
  · exact List.mem_flatMap.mpr ⟨s, hs, List.mem_map.mpr ⟨label, hl, rfl⟩⟩
  · intro pr hpr
    obtain ⟨s2, hs2, hpr2⟩ := List.mem_flatMap.mp hpr
    obtain ⟨l2, hl2, rfl⟩ := List.mem_map.mp hpr2
    exact ⟨rfl, hl2, s2, hs2, rfl, rfl⟩

/-- C7, witness at a one-startup job. -/
theorem C7_witness :
    (pairList "t" [⟨"e1", "Swiggy"⟩]).length = 3 * ([⟨"e1", "Swiggy"⟩] : List Startup).length ∧
    (("t", hypothesisFor "positive" "Swiggy"), ("e1", "positive")) ∈
      pairList "t" [⟨"e1", "Swiggy"⟩] ∧
    ∀ pr ∈ pairList "t" [⟨"e1", "Swiggy"⟩],
      pr.1.1 = "t" ∧ pr.2.2 ∈ labels ∧
      ∃ s2 ∈ ([⟨"e1", "Swiggy"⟩] : List Startup),
        pr.2.1 = s2.id ∧ pr.1.2 = hypothesisFor pr.2.2 s2.name :=
  C7_pair_construction "t" [⟨"e1", "Swiggy"⟩] ⟨"e1", "Swiggy"⟩ "positive"
    (by decide) (by decide)

/-! ## C3 : at most one record per (article, entity) pair -/

/-- Records kept for startups with distinct identifiers yield distinct
(article, startup) pairs. -/
theorem nodup_filterMap_id_pairs (aid : String) (p : Startup → Bool) :
    ∀ l : List Startup, (l.map Startup.id).Nodup →
      (l.filterMap (fun s => if p s then some (aid, s.id) else none)).Nodup := by
  intro l
  induction l with
  | nil => intro _; simp
  | cons s rest ih =>
    intro h
    rw [List.map_cons, List.nodup_cons] at h
    by_cases hp : p s
    · simp only [List.filterMap_cons, hp, if_true]
      rw [List.nodup_cons]
      refine ⟨?_, ih h.2⟩
      intro hmem
      obtain ⟨s2, hs2, heq⟩ := List.mem_filterMap.mp hmem
      by_cases hp2 : p s2
      · rw [if_pos hp2] at heq
        have hid : s2.id = s.id := by
          have := (Option.some.injEq _ _).mp heq
          exact congrArg Prod.snd this
        exact h.1 (List.mem_map.mpr ⟨s2, hs2, hid⟩)
      · rw [if_neg hp2] at heq
        cases heq
    · simp only [List.filterMap_cons, hp, if_false]
      exact ih h.2

/-- C3, counterexample.  The claim quantifies over jobs whose entity list
repeats an identifier; the per-article scorer iterates the given startup
list and appends one record per occurrence, so a job listing the same
entity twice yields two records for the same (articleId, startupId)
pair. -/
theorem C3_counterexample :
    ¬ ((analyze_article_sentiments constHalfBackend ⟨"a1", "t", "c"⟩
        [⟨"s1", "Acme"⟩, ⟨"s1", "Acme"⟩]).map
      (fun r => (r.articleId, r.startupId))).Nodup := by
  decide

/-- C3, amended.  Whenever the job's entity identifiers are pairwise
distinct (which holds for jobs produced by the mention matcher, a set),
the emitted records have pairwise distinct (articleId, startupId) pairs;
with a duplicated identifier the scorer emits one record per occurrence. -/
theorem C3_nodup_when_ids_distinct (score : Backend) (article : Article)
    (startups : List Startup) (h : (startups.map Startup.id).Nodup) :
    ((analyze_article_sentiments score article startups).map
      (fun r => (r.articleId, r.startupId))).Nodup := by
  by_cases hs : startups = []
  · simp [analyze_article_sentiments, hs]
  · simp only [analyze_article_sentiments, if_neg hs]
    by_cases hp : predict_batch_for_startups score
        (article.title ++ ". " ++ article.content) startups = []
    · simp [hp]
    · rw [if_neg hp, List.map_filterMap]
      have hfun : (fun s : Startup =>
          (((predict_batch_for_startups score (article.title ++ ". " ++ article.content)
              startups).find? (fun pr => pr.1 == s.id)).map (fun pr =>
            ({ articleId := article.id, startupId := s.id,
               positiveScore := pr.2.positiveScore, neutralScore := pr.2.neutralScore,
               negativeScore := pr.2.negativeScore,
               sentiment := pr.2.sentiment } : SentimentRecord))).map
            (fun r => (r.articleId, r.startupId))) =
          (fun s : Startup =>
            if ((predict_batch_for_startups score (article.title ++ ". " ++ article.content)
                startups).find? (fun pr => pr.1 == s.id)).isSome
            then some (article.id, s.id) else none) := by
        funext s
        cases hfind : (predict_batch_for_startups score
            (article.title ++ ". " ++ article.content) startups).find?
            (fun pr => pr.1 == s.id) <;> simp [hfind]
      rw [hfun]
      exact nodup_filterMap_id_pairs article.id _ startups h

/-- C3, witness on a two-startup job with distinct identifiers. -/
theorem C3_witness :
    ((analyze_article_sentiments constHalfBackend ⟨"a1", "t", "c"⟩
        [⟨"s1", "Acme"⟩, ⟨"s2", "Beta"⟩]).map
      (fun r => (r.articleId, r.startupId))).Nodup :=
  C3_nodup_when_ids_distinct constHalfBackend ⟨"a1", "t", "c"⟩
    [⟨"s1", "Acme"⟩, ⟨"s2", "Beta"⟩] (by decide)

/-! ## C5 : argmax label selection and tie-breaking -/

/-- Characterization of Python `max(["positive", "neutral", "negative"],
key=key)`: the first label attaining the maximal key wins. -/
theorem pyMaxKey_labels_char (key : String → ℚ) :
    (pyMaxKey labels key = "positive" ↔
      key "neutral" ≤ key "positive" ∧ key "negative" ≤ key "positive") ∧
    (pyMaxKey labels key = "neutral" ↔
      key "positive" < key "neutral" ∧ key "negative" ≤ key "neutral") ∧
    (pyMaxKey labels key = "negative" ↔
      key "positive" < key "negative" ∧ key "neutral" < key "negative") := by
  have hdef : pyMaxKey labels key =
      if key (if key "positive" < key "neutral" then "neutral" else "positive") <
          key "negative"
      then "negative"
      else if key "positive" < key "neutral" then "neutral" else "positive" := rfl
  rw [hdef]
  by_cases h1 : key "positive" < key "neutral"
  · simp only [if_pos h1]
    by_cases h2 : key "neutral" < key "negative"
    · simp only [if_pos h2]
      exact ⟨Iff.intro (fun hc => absurd hc (by decide))
              (fun hc => absurd h1 (not_lt.mpr hc.1)),
             Iff.intro (fun hc => absurd hc (by decide))
              (fun hc => absurd h2 (not_lt.mpr hc.2)),
             Iff.intro (fun _ => ⟨by linarith, h2⟩) (fun _ => by trivial)⟩
    · simp only [if_neg h2]
      push_neg at h2
      exact ⟨Iff.intro (fun hc => absurd hc (by decide))
              (fun hc => absurd h1 (not_lt.mpr hc.1)),
             Iff.intro (fun _ => ⟨h1, h2⟩) (fun _ => by trivial),
             Iff.intro (fun hc => absurd hc (by decide))
              (fun hc => absurd hc.2 (not_lt.mpr h2))⟩
  · simp only [if_neg h1]
    push_neg at h1
    by_cases h2 : key "positive" < key "negative"
    · simp only [if_pos h2]
      exact ⟨Iff.intro (fun hc => absurd hc (by decide))
              (fun hc => absurd h2 (not_lt.mpr hc.2)),
             Iff.intro (fun hc => absurd hc (by decide))
              (fun hc => absurd hc.1 (not_lt.mpr h1)),
             Iff.intro (fun _ => ⟨h2, by linarith⟩) (fun _ => by trivial)⟩
    · simp only [if_neg h2]
      push_neg at h2
      exact ⟨Iff.intro (fun _ => ⟨h1, h2⟩) (fun _ => by trivial),
             Iff.intro (fun hc => absurd hc (by decide))
              (fun hc => absurd hc.1 (not_lt.mpr h1)),
             Iff.intro (fun hc => absurd hc (by decide))
              (fun hc => absurd hc.1 (not_lt.mpr h2))⟩

/-- C5, confirmed.  Every record emitted by the bulk scorer carries as its
sentiment the label with the maximum stored score, and a label later in
the order positive, neutral, negative is selected only when its score is
strictly greater than every earlier label's score (first maximum wins). -/
theorem C5_argmax_tiebreak (score : Backend) (article_text : String)
    (startups : List Startup) (sid : String) (info : SentimentInfo)
    (h : (sid, info) ∈ predict_batch_for_startups score article_text startups) :
    (info.sentiment = "positive" ↔
      info.neutralScore ≤ info.positiveScore ∧
        info.negativeScore ≤ info.positiveScore) ∧
    (info.sentiment = "neutral" ↔
      info.positiveScore < info.neutralScore ∧
        info.negativeScore ≤ info.neutralScore) ∧
    (info.sentiment = "negative" ↔
      info.positiveScore < info.negativeScore ∧
        info.neutralScore < info.negativeScore) := by
  unfold predict_batch_for_startups at h
  by_cases hs : startups = []
  · rw [if_pos hs] at h
    cases h
  · rw [if_neg hs] at h
    cases hb : score ((pairList article_text startups).map Prod.fst) with
    | error e =>
      rw [hb] at h
      cases h
    | ok entailment_scores =>
      rw [hb] at h
      obtain ⟨⟨sid2, d⟩, _, heq⟩ := List.mem_map.mp h
      injection heq with e1 e2
      subst e2
      have hc := pyMaxKey_labels_char (fun x => getLabelScore d x)
      simpa [finalizeInfo, getLabelScore] using hc

/-- C5, witness: a concrete single-startup job with scores 0.7, 0.2, 0.1
selects "positive". -/
theorem C5_witness :
    (demoInfo.sentiment = "positive" ↔
      demoInfo.neutralScore ≤ demoInfo.positiveScore ∧
        demoInfo.negativeScore ≤ demoInfo.positiveScore) ∧
    (demoInfo.sentiment = "neutral" ↔
      demoInfo.positiveScore < demoInfo.neutralScore ∧
        demoInfo.negativeScore ≤ demoInfo.neutralScore) ∧
    (demoInfo.sentiment = "negative" ↔
      demoInfo.positiveScore < demoInfo.negativeScore ∧
        demoInfo.neutralScore < demoInfo.negativeScore) :=
  C5_argmax_tiebreak threeScoreBackend "Swiggy raised funds" [⟨"s1", "Swiggy"⟩] "s1"
    demoInfo (by decide)

/-! ## C8 : URL deduplication -/

/-- Unfolding membership through the deduplication fold: an entry is in
the result iff it was already in the accumulator, or its key is new,
truthy, and the entry's article is the first of the remaining input with
that url. -/
theorem dedup_fold_mem (l : List RawArticle) :
    ∀ (acc : List (String × RawArticle)) (u : String) (a : RawArticle),
      ((u, a) ∈ l.foldl dedupStep acc ↔
        (u, a) ∈ acc ∨ (u ∉ acc.map Prod.fst ∧ u ≠ "" ∧
          l.find? (fun x => x.url == some u) = some a)) := by
  induction l with
  | nil =>
    intro acc u a
    simp
  | cons x rest ih =>
    intro acc u a
    rw [List.foldl_cons]
    cases hx : x.url with
    | none =>
      have hstep : dedupStep acc x = acc := by simp [dedupStep, hx]
      have hpred : ¬((x.url == some u) = true) := by simp [hx]
      rw [hstep, ih, @List.find?_cons_of_neg _ (fun y => y.url == some u) x rest hpred]
    | some v =>
      by_cases hv : (v == "" || (acc.map Prod.fst).contains v) = true
      · have hstep : dedupStep acc x = acc := by
          simp only [dedupStep, hx]
          rw [if_pos hv]
        rw [hstep, ih]
        by_cases huv : u = v
        · subst huv
          have hpred : (x.url == some u) = true := by simp [hx]
          rw [@List.find?_cons_of_pos _ (fun y => y.url == some u) x rest hpred]
          have hv2 : u = "" ∨ u ∈ acc.map Prod.fst := by
            simpa [List.contains, List.elem_iff] using hv
          constructor
          · rintro (h | ⟨hnk, hne, _⟩)
            · exact Or.inl h
            · rcases hv2 with h0 | h0
              · exact absurd h0 hne
              · exact absurd h0 hnk
          · rintro (h | ⟨hnk, hne, _⟩)
            · exact Or.inl h
            · rcases hv2 with h0 | h0
              · exact absurd h0 hne
              · exact absurd h0 hnk
        · have hpred : ¬((x.url == some u) = true) := by
            rw [hx]
            intro hc
            exact huv (Option.some_inj.mp (beq_iff_eq.mp hc)).symm
          rw [@List.find?_cons_of_neg _ (fun y => y.url == some u) x rest hpred]
      · have hstep : dedupStep acc x = acc ++ [(v, x)] := by
          simp only [dedupStep, hx]
          rw [if_neg hv]
        have hv2 : ¬(v = "") ∧ v ∉ acc.map Prod.fst := by
          rw [Bool.or_eq_true] at hv
          push_neg at hv
          refine ⟨fun hc => hv.1 (by simpa using hc), fun hc => hv.2 ?_⟩
          show (acc.map Prod.fst).elem v = true
          exact List.elem_iff.mpr hc
        rw [hstep, ih]
        by_cases huv : u = v
        · subst huv
          have hpred : (x.url == some u) = true := by simp [hx]
          rw [@List.find?_cons_of_pos _ (fun y => y.url == some u) x rest hpred]
          constructor
          · rintro (h | ⟨hnk, hne, hfind⟩)
            · rcases List.mem_append.mp h with h2 | h2
              · exact Or.inl h2
              · have h3 := List.mem_singleton.mp h2
                have ha : a = x := congrArg Prod.snd h3
                exact Or.inr ⟨hv2.2, hv2.1, by rw [ha]⟩
            · refine absurd ?_ hnk
              rw [List.map_append]
              exact List.mem_append.mpr (Or.inr (by simp))
          · rintro (h | ⟨_, _, hfind⟩)
            · exact Or.inl (List.mem_append.mpr (Or.inl h))
            · have hxa : x = a := by simpa using hfind
              exact Or.inl (List.mem_append.mpr (Or.inr (by simp [hxa])))
        · have hpred : ¬((x.url == some u) = true) := by
            rw [hx]
            intro hc
            exact huv (Option.some_inj.mp (beq_iff_eq.mp hc)).symm
          rw [@List.find?_cons_of_neg _ (fun y => y.url == some u) x rest hpred]
          constructor
          · rintro (h | ⟨hnk, hne, hfind⟩)
            · rcases List.mem_append.mp h with h2 | h2
              · exact Or.inl h2
              · have h3 := List.mem_singleton.mp h2
                exact absurd (congrArg Prod.fst h3) huv
            · refine Or.inr ⟨?_, hne, hfind⟩
              intro hc
              refine hnk ?_
              rw [List.map_append]
              exact List.mem_append.mpr (Or.inl hc)
          · rintro (h | ⟨hnk, hne, hfind⟩)
            · exact Or.inl (List.mem_append.mpr (Or.inl h))
            · refine Or.inr ⟨?_, hne, hfind⟩
              intro hc
              rw [List.map_append] at hc
              rcases List.mem_append.mp hc with hc2 | hc2
              · exact hnk hc2
              · simp at hc2
                exact huv hc2

/-- The deduplication fold keeps its keys distinct. -/
theorem dedup_fold_keys_nodup (l : List RawArticle) :
    ∀ acc : List (String × RawArticle), ((acc.map Prod.fst).Nodup) →
      ((l.foldl dedupStep acc).map Prod.fst).Nodup := by
  induction l with
  | nil =>
    intro acc h
    simpa using h
  | cons x rest ih =>
    intro acc h
    rw [List.foldl_cons]
    cases hx : x.url with
    | none =>
      have hstep : dedupStep acc x = acc := by simp [dedupStep, hx]
      rw [hstep]
      exact ih acc h
    | some v =>
      by_cases hv : (v == "" || (acc.map Prod.fst).contains v) = true
      · have hstep : dedupStep acc x = acc := by
          simp only [dedupStep, hx]
          rw [if_pos hv]
        rw [hstep]
        exact ih acc h
      · have hstep : dedupStep acc x = acc ++ [(v, x)] := by
          simp only [dedupStep, hx]
          rw [if_neg hv]
        have hv2 : v ∉ acc.map Prod.fst := by
          rw [Bool.or_eq_true] at hv
          push_neg at hv
          intro hc
          refine hv.2 ?_
          show (acc.map Prod.fst).elem v = true
          exact List.elem_iff.mpr hc
        rw [hstep]
        refine ih _ ?_
        rw [List.map_append, List.nodup_append]
        refine ⟨h, by simp, ?_⟩
        intro b hb hc
        simp only [List.map_cons, List.map_nil, List.mem_singleton] at hc
        rw [hc] at hb
        exact hv2 hb

/-- C8, confirmed.  The deduplicated mapping has pairwise distinct URL
keys; every retained entry carries exactly its key as url and comes from
the input; an entry is retained precisely when its url is non-falsy and
the article is the first in encounter order carrying that url (articles
with a missing — or empty, which is equally falsy — url are never
retained). -/
theorem C8_dedup_first_seen (all_articles : List RawArticle) :
    ((deduplicate_articles all_articles).map Prod.fst).Nodup ∧
    (∀ u a, (u, a) ∈ deduplicate_articles all_articles →
      a.url = some u ∧ a ∈ all_articles) ∧
    (∀ u a, (u, a) ∈ deduplicate_articles all_articles ↔
      u ≠ "" ∧ all_articles.find? (fun x => x.url == some u) = some a) := by
  have hmem := dedup_fold_mem all_articles []
  have hiff : ∀ u a, (u, a) ∈ deduplicate_articles all_articles ↔
      u ≠ "" ∧ all_articles.find? (fun x => x.url == some u) = some a := by
    intro u a
    rw [deduplicate_articles, hmem]
    simp
  refine ⟨?_, ?_, hiff⟩
  · exact dedup_fold_keys_nodup all_articles [] (by simp)
  · intro u a hin
    obtain ⟨hne, hfind⟩ := (hiff u a).mp hin
    refine ⟨?_, List.mem_of_find?_eq_some hfind⟩
    have hp := List.find?_some hfind
    have := beq_iff_eq.mp hp
    exact this

/-- C8, witness on a concrete input with a duplicate url, a missing url
and an empty url. -/
theorem C8_witness :
    (⟨some "a", "A1"⟩ : RawArticle).url = some "a" ∧
    (⟨some "a", "A1"⟩ : RawArticle) ∈
      ([⟨some "a", "A1"⟩, ⟨some "a", "A2"⟩, ⟨none, "B"⟩, ⟨some "", "C"⟩] :
        List RawArticle) :=
  (C8_dedup_first_seen
    [⟨some "a", "A1"⟩, ⟨some "a", "A2"⟩, ⟨none, "B"⟩, ⟨some "", "C"⟩]).2.1
    "a" ⟨some "a", "A1"⟩ (by decide)

/-! ## C4 : lookback tiering -/

/-- Insertion into the sorted-by-sector list preserves members. -/
theorem mem_insertBySector (x a : ApiStartup) :
    ∀ l : List ApiStartup, a ∈ insertBySector x l ↔ a = x ∨ a ∈ l := by
  intro l
  induction l with
  | nil => simp [insertBySector]
  | cons y ys ih =>
    have hstep : insertBySector x (y :: ys) =
        if pyStrLt x.sectorId y.sectorId = true then x :: y :: ys
        else y :: insertBySector x ys := rfl
    rw [hstep]
    by_cases hlt : pyStrLt x.sectorId y.sectorId = true
    · rw [if_pos hlt]
      simp [List.mem_cons]
    · rw [if_neg hlt]
      simp only [List.mem_cons, ih]
      tauto

/-- Sorting by sector preserves members. -/
theorem mem_sortBySector (a : ApiStartup) :
    ∀ l : List ApiStartup, a ∈ sortBySector l ↔ a ∈ l := by
  intro l
  induction l with
  | nil => simp [sortBySector]
  | cons y ys ih =>
    have hstep : sortBySector (y :: ys) = insertBySector y (sortBySector ys) := rfl
    rw [hstep, mem_insertBySector, ih]
    exact (List.mem_cons).symm

/-- Members of a group produced by the worker come either from the run
being collected or from the remaining input. -/
theorem mem_groupRunsGo (a : ApiStartup) :
    ∀ (l : List ApiStartup) (k : String) (run : List ApiStartup) (k2 : String)
      (g : List ApiStartup),
      (k2, g) ∈ groupRunsGo k run l → a ∈ g → a ∈ run ∨ a ∈ l := by
  intro l
  induction l with
  | nil =>
    intro k run k2 g hmem ha
    simp only [groupRunsGo, List.mem_singleton] at hmem
    have hg : g = run.reverse := congrArg Prod.snd hmem
    left
    rw [hg] at ha
    exact List.mem_reverse.mp ha
  | cons y ys ih =>
    intro k run k2 g hmem ha
    by_cases hk : (y.sectorId == k) = true
    · rw [show groupRunsGo k run (y :: ys) = groupRunsGo k (y :: run) ys from by
        simp [groupRunsGo, hk]] at hmem
      rcases ih k (y :: run) k2 g hmem ha with h | h
      · rcases List.mem_cons.mp h with h2 | h2
        · right; exact List.mem_cons.mpr (Or.inl h2)
        · left; exact h2
      · right; exact List.mem_cons.mpr (Or.inr h)
    · rw [show groupRunsGo k run (y :: ys) =
          (k, run.reverse) :: groupRunsGo y.sectorId [y] ys from by
        simp [groupRunsGo, hk]] at hmem
      rcases List.mem_cons.mp hmem with h2 | h2
      · have hg : g = run.reverse := congrArg Prod.snd h2
        left
        rw [hg] at ha
        exact List.mem_reverse.mp ha
      · rcases ih y.sectorId [y] k2 g h2 ha with h | h
        · right; exact List.mem_cons.mpr (Or.inl (List.mem_singleton.mp h))
        · right; exact List.mem_cons.mpr (Or.inr h)

/-- Members of a grouped run are members of the grouped list. -/
theorem mem_groupRuns (a : ApiStartup) (l : List ApiStartup) (k : String)
    (g : List ApiStartup) (h : (k, g) ∈ groupRuns l) (ha : a ∈ g) : a ∈ l := by
  cases l with
  | nil => simp [groupRuns] at h
  | cons x xs =>
    have h2 := mem_groupRunsGo a xs x.sectorId [x] k g (by simpa [groupRuns] using h) ha
    rcases h2 with h3 | h3
    · exact List.mem_cons.mpr (Or.inl (List.mem_singleton.mp h3))
    · exact List.mem_cons.mpr (Or.inr h3)

/-- C4, confirmed.  In every query group, an entity whose identifier is in
the prior-sentiment set sits in a group whose window is exactly
(today - 1, today), and an entity whose identifier is absent sits in a
group whose window is exactly (today - 30, today); the emitted QuerySpec
copies the group's window unchanged (`buildQueryForGroup`). -/
theorem C4_tiering (today : ℤ) (all_startups_data : List ApiStartup)
    (existing_startup_ids : List String) (sec : String) (fromDate toDate : ℤ)
    (g : List ApiStartup) (s : ApiStartup)
    (hg : (sec, fromDate, toDate, g) ∈
      build_query_groups today all_startups_data existing_startup_ids)
    (hs : s ∈ g) :
    (s.id ∈ existing_startup_ids → fromDate = today - 1 ∧ toDate = today) ∧
    (s.id ∉ existing_startup_ids → fromDate = today - 30 ∧ toDate = today) := by
  simp only [build_query_groups] at hg
  rcases List.mem_append.mp hg with h | h
  · by_cases he : (all_startups_data.filter
        (fun s2 => !(existing_startup_ids.contains s2.id))).isEmpty = true
    · rw [if_pos he] at h
      cases h
    · rw [if_neg he] at h
      obtain ⟨p, hg2, heq⟩ := List.mem_map.mp h
      have e3 : today - 30 = fromDate := congrArg (fun t => t.2.1) heq
      have e5 : today = toDate := congrArg (fun t => t.2.2.1) heq
      have e6 : p.2 = g := congrArg (fun t => t.2.2.2) heq
      have hsin : s ∈ all_startups_data.filter
          (fun s2 => !(existing_startup_ids.contains s2.id)) := by
        have h4 := mem_groupRuns s _ p.1 p.2 hg2 (by rw [e6]; exact hs)
        exact (mem_sortBySector s _).mp h4
      have hnotin : s.id ∉ existing_startup_ids := by
        have hf := (List.mem_filter.mp hsin).2
        intro hc
        have hc2 : (existing_startup_ids.contains s.id) = true := by
          show existing_startup_ids.elem s.id = true
          exact List.elem_iff.mpr hc
        rw [hc2] at hf
        cases hf
      exact ⟨fun hc => absurd hc hnotin, fun _ => ⟨e3.symm, e5.symm⟩⟩
  · by_cases he : (all_startups_data.filter
        (fun s2 => existing_startup_ids.contains s2.id)).isEmpty = true
    · rw [if_pos he] at h
      cases h
    · rw [if_neg he] at h
      obtain ⟨p, hg2, heq⟩ := List.mem_map.mp h
      have e3 : today - 1 = fromDate := congrArg (fun t => t.2.1) heq
      have e5 : today = toDate := congrArg (fun t => t.2.2.1) heq
      have e6 : p.2 = g := congrArg (fun t => t.2.2.2) heq
      have hsin : s ∈ all_startups_data.filter
          (fun s2 => existing_startup_ids.contains s2.id) := by
        have h4 := mem_groupRuns s _ p.1 p.2 hg2 (by rw [e6]; exact hs)
        exact (mem_sortBySector s _).mp h4
      have hin : s.id ∈ existing_startup_ids := by
        have hf := (List.mem_filter.mp hsin).2
        have : existing_startup_ids.elem s.id = true := hf
        exact List.elem_iff.mp this
      exact ⟨fun _ => ⟨e3.symm, e5.symm⟩, fun hc => absurd hin hc⟩

/-- C4, witness: one tracked and one new startup in the same sector. -/
theorem C4_witness :
    ((⟨"a", "A", "s1", "Tech", none⟩ : ApiStartup).id ∈ ["a"] →
      (99 : ℤ) = 100 - 1 ∧ (100 : ℤ) = 100) ∧
    ((⟨"a", "A", "s1", "Tech", none⟩ : ApiStartup).id ∉ ["a"] →
      (99 : ℤ) = 100 - 30 ∧ (100 : ℤ) = 100) :=
  C4_tiering 100 [⟨"a", "A", "s1", "Tech", none⟩, ⟨"b", "B", "s1", "Tech", none⟩]
    ["a"] "s1" 99 100 [⟨"a", "A", "s1", "Tech", none⟩] ⟨"a", "A", "s1", "Tech", none⟩
    (by decide) (by decide)

/-! ## C9 : keyword-disjunction clause -/

/-- C9, counterexample.  A group whose only keyword is the blank string
" " has an empty clause under the claim's rule (blank keywords dropped),
so no QuerySpec may be emitted; the code only drops falsy (empty)
keywords, keeps " " and emits a QuerySpec. -/
theorem C9_counterexample :
    specKeywordClause [⟨"s1", "Acme", "sec1", "", some [" "]⟩] = [] ∧
    build_sector_queries 100 [⟨"s1", "Acme", "sec1", "", some [" "]⟩] [] =
      [("(\"Acme\") AND (\" \")", 70, 100)] := by
  decide

/-- C9, amended.  The keyword clause of a group is the deduplicated union
of the members' category names and auxiliary keywords with only empty
(falsy) keywords dropped — whitespace-only keywords are kept — and a
group is skipped (no QuerySpec) exactly when that filtered keyword list
is empty. -/
theorem C9_keyword_clause (sec : String) (fromDate toDate : ℤ) (g : List ApiStartup) :
    (∀ k, k ∈ (groupAllKeywords g).filter (fun k2 => !(k2 == "")) ↔
      (k ≠ "" ∧ ((∃ s ∈ g, s.sectorName = k) ∨ ∃ s ∈ g, k ∈ s.findingKeywords.getD []))) ∧
    (buildQueryForGroup (sec, fromDate, toDate, g) = none ↔
      (groupAllKeywords g).filter (fun k2 => !(k2 == "")) = []) := by
  constructor
  · intro k
    simp only [List.mem_filter, groupAllKeywords, List.mem_dedup, List.mem_append,
      List.mem_filterMap, List.mem_flatMap]
    constructor
    · rintro ⟨hmem, hne⟩
      have hk : k ≠ "" := by simpa using hne
      refine ⟨hk, ?_⟩
      rcases hmem with ⟨s2, hs2, hif⟩ | ⟨s2, hs2, hkw⟩
      · by_cases h0 : s2.sectorName = ""
        · rw [if_pos h0] at hif
          cases hif
        · rw [if_neg h0] at hif
          exact Or.inl ⟨s2, hs2, Option.some_inj.mp hif⟩
      · exact Or.inr ⟨s2, hs2, hkw⟩
    · rintro ⟨hk, hmem⟩
      refine ⟨?_, by simpa using hk⟩
      rcases hmem with ⟨s2, hs2, hsec⟩ | ⟨s2, hs2, hkw⟩
      · refine Or.inl ⟨s2, hs2, ?_⟩
        have h0 : ¬ s2.sectorName = "" := by rw [hsec]; exact hk
        rw [if_neg h0, hsec]
      · exact Or.inr ⟨s2, hs2, hkw⟩
  · have h1 : buildQueryForGroup (sec, fromDate, toDate, g) =
        if (quotedKeywords g).isEmpty = true then none
        else some ("(" ++ startupNameQuery g ++ ") AND (" ++
          String.intercalate " OR " (quotedKeywords g) ++ ")", fromDate, toDate) := rfl
    by_cases hqk : (quotedKeywords g).isEmpty = true
    · rw [h1, if_pos hqk]
      have hnil : ((groupAllKeywords g).filter (fun k2 => !(k2 == ""))) = [] := by
        have h2 := List.isEmpty_iff.mp hqk
        rw [quotedKeywords] at h2
        exact List.map_eq_nil_iff.mp h2
      exact iff_of_true rfl hnil
    · rw [h1, if_neg hqk]
      have hne2 : ¬ ((groupAllKeywords g).filter (fun k2 => !(k2 == ""))) = [] := by
        intro hc
        apply hqk
        rw [List.isEmpty_iff, quotedKeywords, hc]
        rfl
      exact iff_of_false (by simp) hne2

/-! ## C6 : matcher semantics -/

/-- Setting a key that is not yet present appends the pair. -/
theorem assocSet_append_of_not_mem (k : List Char) (v : String) :
    ∀ l : List (List Char × String), k ∉ l.map Prod.fst →
      assocSet l k v = l ++ [(k, v)] := by
  intro l
  induction l with
  | nil => intro _; rfl
  | cons p rest ih =>
    intro h
    have hk : ¬ p.1 = k := by
      intro hc
      refine h ?_
      rw [List.map_cons]
      exact List.mem_cons.mpr (Or.inl hc.symm)
    have hstep : assocSet (p :: rest) k v =
        if p.1 = k then (p.1, v) :: rest else (p.1, p.2) :: assocSet rest k v := rfl
    rw [hstep, if_neg hk,
      ih (fun hc => h (by rw [List.map_cons]; exact List.mem_cons.mpr (Or.inr hc)))]
    rfl

/-- The `build_engine` loop extends the automaton exactly by
`wordEntries`, provided the stored words stay distinct; the finalized
flag is untouched by the loop. -/
theorem foldl_buildStep_auto :
    ∀ (startups : List Startup) (a : AhoAutomaton) (m : List (String × Startup)),
      (∀ w, w ∈ a.words.map Prod.fst → w ∉ addedNorms startups) →
      (addedNorms startups).Nodup →
      (startups.foldl buildStep (a, m)).1 =
        ⟨a.words ++ wordEntries startups, a.finalized⟩ := by
  intro startups
  induction startups with
  | nil =>
    intro a m _ _
    simp [wordEntries]
  | cons s rest ih =>
    intro a m hdisj hnd
    rw [List.foldl_cons]
    by_cases h0 : s.name = ""
    · have hstep : buildStep (a, m) s = (a, m) := by simp [buildStep, h0]
      have hW : wordEntries (s :: rest) = wordEntries rest := by
        simp [wordEntries, h0]
      have haN : addedNorms (s :: rest) = addedNorms rest := by rw [addedNorms, hW]; rfl
      rw [hstep, hW]
      exact ih a m (fun w hw hc => hdisj w hw (by rw [haN]; exact hc))
        (by rw [haN] at hnd; exact hnd)
    · by_cases h1 : normName s.name = []
      · have hstep : buildStep (a, m) s = (a, assocSet m s.id ⟨s.id, s.name⟩) := by
          simp [buildStep, h0, addWord, h1]
        have hW : wordEntries (s :: rest) = wordEntries rest := by
          simp [wordEntries, h0, h1]
        have haN : addedNorms (s :: rest) = addedNorms rest := by rw [addedNorms, hW]; rfl
        rw [hstep, hW]
        exact ih a _ (fun w hw hc => hdisj w hw (by rw [haN]; exact hc))
          (by rw [haN] at hnd; exact hnd)
      · have hWcons : wordEntries (s :: rest) =
            (normName s.name, s.id) :: wordEntries rest := by
          simp [wordEntries, h0, h1]
        have haN : addedNorms (s :: rest) = normName s.name :: addedNorms rest := by
          rw [addedNorms, hWcons, List.map_cons]
          rfl
        have hkey : normName s.name ∉ a.words.map Prod.fst := by
          intro hc
          refine hdisj _ hc ?_
          rw [haN]
          exact List.mem_cons_self _ _
        have hstep : buildStep (a, m) s =
            (⟨a.words ++ [(normName s.name, s.id)], a.finalized⟩,
              assocSet m s.id ⟨s.id, s.name⟩) := by
          have h2 : buildStep (a, m) s =
              (addWord a (normName s.name) s.id, assocSet m s.id ⟨s.id, s.name⟩) := by
            show (if s.name = "" then (a, m) else _) = _
            rw [if_neg h0]
          rw [h2]
          have h3 : addWord a (normName s.name) s.id =
              ⟨a.words ++ [(normName s.name, s.id)], a.finalized⟩ := by
            show (if normName s.name = [] then a else
              { a with words := assocSet a.words (normName s.name) s.id }) = _
            rw [if_neg h1, assocSet_append_of_not_mem _ _ _ hkey]
          rw [h3]
        have hnd2 : (addedNorms rest).Nodup := by
          rw [haN] at hnd
          exact (List.nodup_cons.mp hnd).2
        have hhead : normName s.name ∉ addedNorms rest := by
          rw [haN] at hnd
          exact (List.nodup_cons.mp hnd).1
        have hdisj2 : ∀ w, w ∈ (a.words ++ [(normName s.name, s.id)]).map Prod.fst →
            w ∉ addedNorms rest := by
          intro w hw
          rw [List.map_append] at hw
          rcases List.mem_append.mp hw with hw2 | hw2
          · intro hc
            exact hdisj w hw2 (by rw [haN]; exact List.mem_cons.mpr (Or.inr hc))
          · intro hc
            have hwn : w = normName s.name := by simpa using hw2
            rw [hwn] at hc
            exact hhead hc
        rw [hstep, ih ⟨a.words ++ [(normName s.name, s.id)], a.finalized⟩ _ hdisj2 hnd2,
          hWcons, List.append_assoc, List.singleton_append]

/-- On a catalog that stores at least one word, `find_startups_in_text`
succeeds and scans the stored words. -/
theorem find_on_built_engine (startups : List Startup) (text : String)
    (hne : startups ≠ []) (hWne : wordEntries startups ≠ [])
    (hnd : (addedNorms startups).Nodup) :
    find_startups_in_text (build_engine StartupSearch.init startups) text =
      Except.ok (((wordEntries startups).filter
        (fun kv => decide (kv.1 <:+: pyLowerChars text.data))).map Prod.snd) := by
  have hA := foldl_buildStep_auto startups ⟨[], false⟩ [] (by simp) hnd
  rw [List.nil_append] at hA
  have hmk : makeAutomaton
      (startups.foldl buildStep (⟨[], false⟩, ([] : List (String × Startup)))).1 =
      ⟨wordEntries startups, true⟩ := by
    rw [hA]
    show (if wordEntries startups = [] then (⟨wordEntries startups, false⟩ : AhoAutomaton)
      else { (⟨wordEntries startups, false⟩ : AhoAutomaton) with finalized := true }) = _
    rw [if_neg hWne]
  have hauto : (build_engine StartupSearch.init startups).automaton =
      some (⟨wordEntries startups, true⟩ : AhoAutomaton) := by
    simp only [build_engine, if_neg hne]
    exact congrArg some hmk
  simp only [find_startups_in_text, hauto]
  simp

/-- C6, counterexample.  The claim normalizes by case-folding only; under
it the catalog entry " Swiggy " (whose case-folded form " swiggy " is not
a substring of "swiggy") must not match, but the code also strips the
pattern and returns the entity. -/
theorem C6_counterexample :
    find_startups_in_text (build_engine StartupSearch.init [⟨"e1", " Swiggy "⟩])
        "swiggy" = Except.ok ["e1"] ∧
    ¬ (pyLowerChars " Swiggy ".data <:+: pyLowerChars "swiggy".data) := by
  decide

/-- C6, amended.  Normalization strips surrounding whitespace and then
case-folds.  For a catalog containing at least one non-blank display name
and whose non-blank display names have pairwise distinct normalizations,
`find(text)` succeeds and returns exactly the identifiers of the entities
whose normalized display name occurs as a substring of the case-folded
text; entities with empty or blank display names are excluded, and
matching is case-insensitive.  (With duplicate normalized names the
automaton keeps only the last entity for that word, hence the
distinctness hypothesis.) -/
theorem C6_matcher_characterization (startups : List Startup) (text : String)
    (i : String) (hw : addedNorms startups ≠ [])
    (hnd : (addedNorms startups).Nodup) :
    ∃ ids, find_startups_in_text (build_engine StartupSearch.init startups) text =
        Except.ok ids ∧
      (i ∈ ids ↔ ∃ s ∈ startups, s.id = i ∧ s.name ≠ "" ∧ normName s.name ≠ [] ∧
        normName s.name <:+: pyLowerChars text.data) := by
  have hne : startups ≠ [] := by
    intro hc
    refine hw ?_
    rw [hc]
    rfl
  have hWne : wordEntries startups ≠ [] := by
    intro hc
    refine hw ?_
    rw [addedNorms, hc]
    rfl
  refine ⟨_, find_on_built_engine startups text hne hWne hnd, ?_⟩
  constructor
  · intro hi
    obtain ⟨kv, hkv, hkvi⟩ := List.mem_map.mp hi
    obtain ⟨hkvW, hpred⟩ := List.mem_filter.mp hkv
    obtain ⟨s2, hs2, hif⟩ := List.mem_filterMap.mp hkvW
    by_cases h0 : s2.name = ""
    · rw [if_pos h0] at hif
      cases hif
    · rw [if_neg h0] at hif
      by_cases h1 : normName s2.name = []
      · rw [if_pos h1] at hif
        cases hif
      · rw [if_neg h1] at hif
        have hkv2 := Option.some_inj.mp hif
        refine ⟨s2, hs2, ?_, h0, h1, ?_⟩
        · rw [← hkvi, ← hkv2]
        · have h3 := of_decide_eq_true hpred
          rw [← hkv2] at h3
          exact h3
  · rintro ⟨s2, hs2, hid, h0, h1, hinf⟩
    refine List.mem_map.mpr ⟨(normName s2.name, s2.id), ?_, hid⟩
    refine List.mem_filter.mpr ⟨?_, decide_eq_true hinf⟩
    refine List.mem_filterMap.mpr ⟨s2, hs2, ?_⟩
    rw [if_neg h0, if_neg h1]

/-- C6, witness: the spec's own example catalog, scanned case-insensitively. -/
theorem C6_witness :
    ∃ ids, find_startups_in_text (build_engine StartupSearch.init
        [⟨"e1", "Swiggy"⟩, ⟨"e2", "Zomato"⟩]) "SWIGGY raised funds" = Except.ok ids ∧
      ("e1" ∈ ids ↔ ∃ s ∈ ([⟨"e1", "Swiggy"⟩, ⟨"e2", "Zomato"⟩] : List Startup),
        s.id = "e1" ∧ s.name ≠ "" ∧ normName s.name ≠ [] ∧
        normName s.name <:+: pyLowerChars "SWIGGY raised funds".data) :=
  C6_matcher_characterization [⟨"e1", "Swiggy"⟩, ⟨"e2", "Zomato"⟩]
    "SWIGGY raised funds" "e1" (by decide) (by decide)

/-- C9, witness of the keyword-clause characterization at a concrete
group. -/
theorem C9_witness :
    ("Tech" ∈ (groupAllKeywords [⟨"a", "A", "s1", "Tech", none⟩]).filter
        (fun k2 => !(k2 == "")) ↔
      ("Tech" ≠ "" ∧ ((∃ s ∈ ([⟨"a", "A", "s1", "Tech", none⟩] : List ApiStartup),
          s.sectorName = "Tech") ∨
        ∃ s ∈ ([⟨"a", "A", "s1", "Tech", none⟩] : List ApiStartup),
          "Tech" ∈ s.findingKeywords.getD []))) :=
  (C9_keyword_clause "s1" 70 100 [⟨"a", "A", "s1", "Tech", none⟩]).1 "Tech"

/-- C10, witness at a concrete text. -/
theorem C10_witness :
    find_startups_in_text (build_engine StartupSearch.init []) "Swiggy raised funds" =
      Except.error "not an Aho-Corasick automaton yet; call make_automaton() first" :=
  C10_unfinalized_automaton_on_empty_build.2 "Swiggy raised funds"
